import Mathlib

/-!
Verification development for the modelstore metadata catalog
(`modelstore/storage/blob_storage.py`, `modelstore/model_store.py`).

The object backend is modelled as an association list from structured keys
to decoded JSON documents, plus a set of keys whose pull attempts fail with
a transport error.  The catalog operations of `BlobStorage` are translated
function by function; operations that perform several backend writes are
given in a `_run` form that also returns the sequence of intermediate
stores (one per backend write), so that temporal claims about the ordering
of writes can be stated.  `get_meta_data` is given in a `_run` form that
returns the list of keys pulled, so that "no backend call is made" can be
stated.
-/

/-- Structured object-storage keys, one constructor per key family of the
path scheme (`modelstore/storage/util/paths.py` is not part of the sources;
modelled from the spec: keys for different domains, models and states never
collide, and a state-scoped model path extends the unscoped model path by
the state name). -/
inductive Key where
  | modelMeta (domain : String) (model_id : String) (state_name : Option String)
  | domainLatest (domain : String)
  | stateRegistry (state_name : String)
  | archive (domain : String) (file_name : String)
  deriving DecidableEq, Repr

/-- The fields of a model metadata record that the catalog reads:
`model.model_id`, `model.domain`, the `created` timestamp used for sorting,
and the storage location of the packaged archive. -/
structure ModelMeta where
  model_id : String
  domain : String
  created : Nat
  storage : Key
  deriving DecidableEq, Repr

/-- A decoded JSON document in the store: either a model metadata record or
a state-registry record `\x7bstate_name, created\x7d`. -/
inductive Doc where
  | model (m : ModelMeta)
  | state (state_name : String) (created : Nat)
  deriving DecidableEq, Repr

/-- The error outcomes of catalog operations, one constructor per Python
exception kind raised or caught by the translated code
(`modelstore/utils/exceptions.py` is not part of the sources; modelled from
the spec error taxonomy: a pull of a missing key surfaces the recognizable
`FilePullFailedException`, while other transport failures are a distinct
backend I/O error). -/
inductive Exc where
  | filePullFailed
  | ioError
  | valueError (msg : String)
  | exception (msg : String)
  | keyError
  | modelNotFound (domain : String) (model_id : String)
  | modelDeleted (domain : String) (model_id : String)
  | domainNotFound (domain : String)
  deriving DecidableEq, Repr

/-- The object store: each object is a key paired with its decoded content. -/
abbrev Objects := List (Key × Doc)

/-- First object stored at a key (the backend holds at most one object per
key; stores built by the operations below never duplicate a key). -/
def lookup : Objects → Key → Option Doc
  | [], _ => none
  | p :: rest, k => if p.1 = k then some p.2 else lookup rest k

/-- Backend `remove`: deletes every object at the key. -/
def remove_key : Objects → Key → Objects
  | [], _ => []
  | p :: rest, k => if p.1 = k then remove_key rest k else p :: remove_key rest k

/-- Backend `push`: overwrites the object at the key. -/
def push_object (s : Objects) (k : Key) (d : Doc) : Objects :=
  (k, d) :: remove_key s k

/-- Backend `pull` (with `_pull_and_load` decoding): keys in `io` fail with
a transport error, missing keys fail with `FilePullFailedException`. -/
def pull_object (io : List Key) (s : Objects) (k : Key) : Except Exc Doc :=
  if k ∈ io then .error .ioError
  else
    match lookup s k with
    | some d => .ok d
    | none => .error .filePullFailed

/-- Listing prefixes used by the catalog: the model-metadata prefix of a
domain (optionally state-scoped), the domains registry, the model-states
registry. -/
inductive PathQuery where
  | models (domain : String) (state_name : Option String)
  | domains
  | states
  deriving DecidableEq, Repr

/-- Whether a key lies directly under a listing prefix (the backend lists
with a delimiter, so a state-scoped model key is not directly under the
unscoped model prefix). -/
def key_under : Key → PathQuery → Bool
  | Key.modelMeta d _ st, PathQuery.models d2 st2 => decide (d = d2 ∧ st = st2)
  | Key.domainLatest _, PathQuery.domains => true
  | Key.stateRegistry _, PathQuery.states => true
  | _, _ => false

/-- The documents stored directly under a prefix, in backend listing order. -/
def objects_under (s : Objects) (p : PathQuery) : List Doc :=
  (s.filter (fun kd => key_under kd.1 p)).map (fun kd => kd.2)

/-- Embedded creation timestamp of a document. -/
def doc_created : Doc → Nat
  | .model m => m.created
  | .state _ c => c

/-- Comparison by embedded creation timestamp. -/
def created_rel (a b : Doc) : Prop := doc_created a ≤ doc_created b

instance : DecidableRel created_rel := fun a b => Nat.decLe (doc_created a) (doc_created b)

instance : IsTotal Doc created_rel := ⟨fun a b => Nat.le_total (doc_created a) (doc_created b)⟩

instance : IsTrans Doc created_rel := ⟨fun _ _ _ hab hbc => Nat.le_trans hab hbc⟩

/-- Modelled from the spec: `sorted_by_created`
(`modelstore/clouds/util/versions.py` is not part of the sources) sorts
records by their embedded creation timestamp, oldest first, stably. -/
def sorted_by_created (l : List Doc) : List Doc := l.insertionSort created_rel

/-- `_read_json_objects`: list the decoded documents under a prefix,
sorted by embedded creation timestamp. -/
def read_json_objects (s : Objects) (p : PathQuery) : List Doc :=
  sorted_by_created (objects_under s p)

/-- Evaluation of a Python list comprehension whose body may raise:
stops at the first error. -/
def mapE (f : α → Except Exc β) : List α → Except Exc (List β)
  | [] => .ok []
  | a :: rest =>
    match f a with
    | .error e => .error e
    | .ok b =>
      match mapE f rest with
      | .error e => .error e
      | .ok bs => .ok (b :: bs)

/-- `v["model"]["model_id"]`: key error unless the document is a model
record. -/
def doc_model_id_e : Doc → Except Exc String
  | .model m => .ok m.model_id
  | .state _ _ => .error .keyError

/-- `d["model"]["domain"]`. -/
def doc_domain_e : Doc → Except Exc String
  | .model m => .ok m.domain
  | .state _ _ => .error .keyError

/-- `x["state_name"]`. -/
def doc_state_name_e : Doc → Except Exc String
  | .state n _ => .ok n
  | .model _ => .error .keyError

/-- Modelled from the spec: the reserved state set
(`modelstore/storage/states/model_states.py` is not part of the sources)
is exactly the single constant "deleted". -/
def RESERVED_DELETED : String := "deleted"

/-- Modelled from the spec: `is_reserved_state` is membership in the
reserved set. -/
def is_reserved_state (state_name : String) : Bool :=
  state_name == RESERVED_DELETED

/-- Whether a name has at least one non-whitespace character (the
complement of "empty or whitespace-only"). -/
def has_content (state_name : String) : Bool :=
  state_name.data.any (fun c => !(c.isWhitespace))

/-- Modelled from the spec: `is_valid_state_name` rejects empty or
whitespace names and names colliding with a reserved label. -/
def is_valid_state_name (state_name : String) : Bool :=
  has_content state_name && !(is_reserved_state state_name)

/-- `BlobStorage.state_exists`: probes the state registry key with a pull;
the broad `except Exception` turns every failure, transport errors
included, into `False`. -/
def state_exists (io : List Key) (s : Objects) (state_name : String) : Bool :=
  match pull_object io s (Key.stateRegistry state_name) with
  | .ok _ => true
  | .error _ => false

/-- `BlobStorage.list_model_states`: reads the registry documents, takes
their `state_name` field, and filters out names that fail
`is_valid_state_name` (which excludes the reserved names). -/
def list_model_states (s : Objects) : Except Exc (List String) :=
  match mapE doc_state_name_e (read_json_objects s PathQuery.states) with
  | .error e => .error e
  | .ok names => .ok (names.filter is_valid_state_name)

/-- `BlobStorage.create_model_state` run form: the second component is the
store after each backend write. -/
def create_model_state_run (io : List Key) (s : Objects) (now : Nat)
    (state_name : String) : Except Exc Objects × List Objects :=
  if !(is_reserved_state state_name) && !(is_valid_state_name state_name) then
    (.error (.valueError ("Cannot create state with name: '" ++ state_name ++ "'")), [])
  else if state_exists io s state_name then
    (.ok s, [])
  else
    let s2 := push_object s (Key.stateRegistry state_name) (Doc.state state_name now)
    (.ok s2, [s2])

/-- `BlobStorage.create_model_state`. -/
def create_model_state (io : List Key) (s : Objects) (now : Nat)
    (state_name : String) : Except Exc Objects :=
  (create_model_state_run io s now state_name).1

/-- `BlobStorage.set_model_state` run form: reserved states are
auto-created, non-reserved states must exist; then the canonical metadata
is pulled and a copy pushed to the state-scoped path. -/
def set_model_state_run (io : List Key) (s : Objects) (now : Nat)
    (domain model_id state_name : String) : Except Exc Objects × List Objects :=
  let step1 : Except Exc Objects × List Objects :=
    if is_reserved_state state_name then
      create_model_state_run io s now state_name
    else if !(state_exists io s state_name) then
      (.error (.valueError ("State '" ++ state_name ++ "' does not exist")), [])
    else
      (.ok s, [])
  match step1 with
  | (.error e, tr) => (.error e, tr)
  | (.ok s1, tr) =>
    match pull_object io s1 (Key.modelMeta domain model_id none) with
    | .error e => (.error e, tr)
    | .ok d =>
      let s2 := push_object s1 (Key.modelMeta domain model_id (some state_name)) d
      (.ok s2, tr ++ [s2])

/-- `BlobStorage.set_model_state`. -/
def set_model_state (io : List Key) (s : Objects) (now : Nat)
    (domain model_id state_name : String) : Except Exc Objects :=
  (set_model_state_run io s now domain model_id state_name).1

/-- `BlobStorage.unset_model_state` run form: reserved states cannot be
unset (silent no-op); non-reserved states must exist; then the object at
the state-scoped path is removed. -/
def unset_model_state_run (io : List Key) (s : Objects)
    (domain model_id state_name : String) : Except Exc Objects × List Objects :=
  if is_reserved_state state_name then
    (.ok s, [])
  else if !(state_exists io s state_name) then
    (.error (.valueError ("State '" ++ state_name ++ "' does not exist")), [])
  else
    let s2 := remove_key s (Key.modelMeta domain model_id (some state_name))
    (.ok s2, [s2])

/-- `BlobStorage.unset_model_state`. -/
def unset_model_state (io : List Key) (s : Objects)
    (domain model_id state_name : String) : Except Exc Objects :=
  (unset_model_state_run io s domain model_id state_name).1

/-- The `for state_name in self.list_model_states(): self.unset_model_state(...)`
loop of `delete_model`; an error aborts the loop (the source has no
try/except around it). -/
def unset_all_run (io : List Key) (domain model_id : String) :
    List String → Objects → Except Exc Objects × List Objects
  | [], s => (.ok s, [])
  | st :: rest, s =>
    match unset_model_state_run io s domain model_id st with
    | (.error e, tr1) => (.error e, tr1)
    | (.ok s1, tr1) =>
      match unset_all_run io domain model_id rest s1 with
      | (r, tr2) => (r, tr1 ++ tr2)

/-- `BlobStorage.delete_model` (the `skip_prompt` path) run form: remove
the archive, unset every registered user state, set the reserved deleted
state (which writes the tombstone copy), then remove the canonical
metadata object.  The second component is the store after each backend
write, starting with the store after the archive removal. -/
def delete_model_run (io : List Key) (s : Objects) (now : Nat)
    (domain model_id : String) (meta_data : ModelMeta) :
    Except Exc Objects × List Objects :=
  let s1 := remove_key s meta_data.storage
  match list_model_states s1 with
  | .error e => (.error e, [s1])
  | .ok states =>
    match unset_all_run io domain model_id states s1 with
    | (.error e, tr) => (.error e, s1 :: tr)
    | (.ok s2, tr) =>
      match set_model_state_run io s2 now domain model_id RESERVED_DELETED with
      | (.error e, tr2) => (.error e, s1 :: (tr ++ tr2))
      | (.ok s3, tr2) =>
        let s4 := remove_key s3 (Key.modelMeta domain model_id none)
        (.ok s4, s1 :: (tr ++ tr2 ++ [s4]))

/-- `BlobStorage.delete_model`. -/
def delete_model (io : List Key) (s : Objects) (now : Nat)
    (domain model_id : String) (meta_data : ModelMeta) : Except Exc Objects :=
  (delete_model_run io s now domain model_id meta_data).1

/-- `BlobStorage.set_meta_data`: persist the record at the canonical model
path and then at the domain-latest path. -/
def set_meta_data (s : Objects) (domain model_id : String)
    (meta_data : ModelMeta) : Objects :=
  let s1 := push_object s (Key.modelMeta domain model_id none) (Doc.model meta_data)
  push_object s1 (Key.domainLatest domain) (Doc.model meta_data)

/-- `BlobStorage.get_domain`: pull the domain-latest path, translating a
failed pull of a missing key into `DomainNotFoundException`. -/
def get_domain (io : List Key) (s : Objects) (domain : String) : Except Exc Doc :=
  match pull_object io s (Key.domainLatest domain) with
  | .ok d => .ok d
  | .error .filePullFailed => .error (.domainNotFound domain)
  | .error e => .error e

/-- `BlobStorage.list_domains`. -/
def list_domains (s : Objects) : Except Exc (List String) :=
  mapE doc_domain_e (read_json_objects s PathQuery.domains)

/-- Python truthiness of the optional `state_name` argument. -/
def state_name_truthy : Option String → Bool
  | none => false
  | some st => st != ""

/-- `BlobStorage.list_models`: a truthy state name must exist, the domain
must exist, then the model ids embedded in the records under the (possibly
state-scoped) model prefix are returned. -/
def list_models (io : List Key) (s : Objects) (domain : String)
    (state_name : Option String) : Except Exc (List String) :=
  if state_name_truthy state_name && !(state_exists io s (state_name.getD "")) then
    .error (.exception ("State: '" ++ state_name.getD "" ++ "' does not exist"))
  else
    match get_domain io s domain with
    | .error e => .error e
    | .ok _ =>
      mapE doc_model_id_e (read_json_objects s (PathQuery.models domain state_name))

/-- `BlobStorage.get_meta_data` run form: the second component is the list
of keys pulled from the backend.  The guard rejects unset arguments before
any backend call; then the canonical path is pulled, and on a failed pull
the reserved-deleted state path is probed to distinguish
`ModelDeletedException` from `ModelNotFoundException`. -/
def get_meta_data_run (io : List Key) (s : Objects) (domain model_id : String) :
    Except Exc Doc × List Key :=
  if domain = "" ∨ model_id = "" then
    (.error (.valueError "domain and model_id must be set"), [])
  else
    let k1 := Key.modelMeta domain model_id none
    match pull_object io s k1 with
    | .ok d => (.ok d, [k1])
    | .error .filePullFailed =>
      let k2 := Key.modelMeta domain model_id (some RESERVED_DELETED)
      (match pull_object io s k2 with
       | .ok _ => .error (.modelDeleted domain model_id)
       | .error .filePullFailed => .error (.modelNotFound domain model_id)
       | .error e => .error e,
       [k1, k2])
    | .error e => (.error e, [k1])

/-- `BlobStorage.get_meta_data`. -/
def get_meta_data (io : List Key) (s : Objects) (domain model_id : String) :
    Except Exc Doc :=
  (get_meta_data_run io s domain model_id).1

/-- Whether an argument fails the `x in [None, ""]` test of
`get_meta_data`. -/
def arg_unset : Option String → Bool
  | none => true
  | some x => x == ""

/-- `BlobStorage.get_meta_data` with the arguments as Python passes them
(either of them may be `None`): the guard mirrors
`any(x in [None, ""] for x in [domain, model_id])`. -/
def get_meta_data_opt_run (io : List Key) (s : Objects)
    (domain model_id : Option String) : Except Exc Doc × List Key :=
  if arg_unset domain || arg_unset model_id then
    (.error (.valueError "domain and model_id must be set"), [])
  else
    get_meta_data_run io s (domain.getD "") (model_id.getD "")

/-- `ModelStore.check_model_exists`: `ModelNotFoundException` and
`FilePullFailedException` are caught and turned into `False`; every other
failure propagates. -/
def check_model_exists (io : List Key) (s : Objects) (domain model_id : String) :
    Except Exc Bool :=
  match get_meta_data io s domain model_id with
  | .ok _ => .ok true
  | .error (.modelNotFound _ _) => .ok false
  | .error .filePullFailed => .ok false
  | .error e => .error e

/-- Whether a key is an archive key (the storage location of a packaged
model always is). -/
def key_is_archive : Key → Bool
  | Key.archive _ _ => true
  | _ => false

/-- Path/content agreement of one stored object: a model-metadata key holds
a model record whose embedded id matches the key, a state-registry key
holds a state record whose name matches the key. -/
def pair_path_ok : Key × Doc → Bool
  | (Key.modelMeta _ m _, Doc.model mm) => mm.model_id == m
  | (Key.modelMeta _ _ _, Doc.state _ _) => false
  | (Key.stateRegistry n, Doc.state n2 _) => n2 == n
  | (Key.stateRegistry _, Doc.model _) => false
  | (_, _) => true

/-- Every user state that the model `(D, M)` is assigned to has a valid
name and a registry entry (states must be created before use). -/
def states_registered (s : Objects) (D M : String) : Bool :=
  s.all (fun p =>
    match p.1 with
    | Key.modelMeta d m (some st) =>
      if d == D && m == M && !(st == RESERVED_DELETED) then
        is_valid_state_name st && (lookup s (Key.stateRegistry st)).isSome
      else true
    | _ => true)

/-- Well-formedness of a store reachable by catalog operations, relative to
a model `(D, M)`. -/
def wf_store (s : Objects) (D M : String) : Bool :=
  s.all pair_path_ok && states_registered s D M


/-- A concrete metadata record used in the concrete runs below. -/
def demo_meta : ModelMeta :=
  { model_id := "m1", domain := "sales", created := 1,
    storage := Key.archive "sales" "artifact" }

/-- A second record, created later, listed by the backend before the first
one. -/
def demo_meta2 : ModelMeta :=
  { model_id := "m2", domain := "sales", created := 5,
    storage := Key.archive "sales" "artifact2" }

/-- A store holding one uploaded model assigned to the user state "prod". -/
def demo_store : Objects :=
  [(Key.stateRegistry "prod", Doc.state "prod" 2),
   (Key.domainLatest "sales", Doc.model demo_meta),
   (Key.modelMeta "sales" "m1" none, Doc.model demo_meta),
   (Key.modelMeta "sales" "m1" (some "prod"), Doc.model demo_meta)]

/-- The store left by a concrete successful `delete_model` run on
`demo_store`. -/
def demo_deleted : Objects :=
  match delete_model [] demo_store 9 "sales" "m1" demo_meta with
  | .ok s => s
  | .error _ => []

/-- A store with only a tombstone for ("sales", "m1"). -/
def tomb_store : Objects :=
  [(Key.modelMeta "sales" "m1" (some "deleted"), Doc.model demo_meta)]

/-- A store with only the canonical record for ("sales", "m1"). -/
def present_store : Objects :=
  [(Key.modelMeta "sales" "m1" none, Doc.model demo_meta)]

/-- A store with two models whose backend listing order is the reverse of
their creation order. -/
def two_models_store : Objects :=
  [(Key.domainLatest "sales", Doc.model demo_meta2),
   (Key.modelMeta "sales" "m2" none, Doc.model demo_meta2),
   (Key.modelMeta "sales" "m1" none, Doc.model demo_meta)]

/-- A store whose "prod" state registry entry exists; pulling it with the
key listed as failing models a transport error during the probe. -/
def reg_store : Objects := [(Key.stateRegistry "prod", Doc.state "prod" 3)]


theorem lookup_remove_key (s : Objects) (k k2 : Key) :
    lookup (remove_key s k) k2 = if k2 = k then none else lookup s k2 := by
  induction s with
  | nil => simp [remove_key, lookup]
  | cons p rest ih =>
    by_cases hk : k2 = k
    · subst hk
      by_cases h1 : p.1 = k2
      · simp [remove_key, h1, ih]
      · simp [remove_key, h1, lookup, ih]
    · by_cases h1 : p.1 = k
      · have h2 : ¬ p.1 = k2 := fun hc => hk (hc ▸ h1 : k2 = k)
        simp [remove_key, h1, ih, hk, lookup, h2]
        rw [if_neg (fun hc : k = k2 => hk hc.symm)]
      · simp [remove_key, h1, lookup, ih, hk]

theorem lookup_push_object (s : Objects) (k : Key) (d : Doc) (k2 : Key) :
    lookup (push_object s k d) k2 = if k2 = k then some d else lookup s k2 := by
  by_cases h : k = k2
  · simp [push_object, lookup, h]
  · have h2 : ¬ (k2 = k) := fun hc => h hc.symm
    simp [push_object, lookup, h, lookup_remove_key, h2]

theorem mem_remove_key {p : Key × Doc} {s : Objects} {k : Key}
    (h : p ∈ remove_key s k) : p ∈ s ∧ p.1 ≠ k := by
  induction s with
  | nil => simp [remove_key] at h
  | cons q rest ih =>
    by_cases h1 : q.1 = k
    · simp only [remove_key, if_pos h1] at h
      exact ⟨List.mem_cons_of_mem q (ih h).1, (ih h).2⟩
    · simp only [remove_key, if_neg h1] at h
      rcases List.mem_cons.mp h with h2 | h2
      · exact ⟨h2 ▸ List.mem_cons_self q rest, h2 ▸ h1⟩
      · exact ⟨List.mem_cons_of_mem q (ih h2).1, (ih h2).2⟩

theorem mem_push_object {p : Key × Doc} {s : Objects} {k : Key} {d : Doc}
    (h : p ∈ push_object s k d) : p = (k, d) ∨ (p ∈ s ∧ p.1 ≠ k) := by
  rcases List.mem_cons.mp h with h1 | h1
  · exact Or.inl h1
  · exact Or.inr (mem_remove_key h1)

theorem lookup_eq_none_iff {s : Objects} {k : Key} :
    lookup s k = none ↔ ∀ d, (k, d) ∉ s := by
  induction s with
  | nil => simp [lookup]
  | cons p rest ih =>
    constructor
    · intro h d hmem
      by_cases h1 : p.1 = k
      · simp [lookup, h1] at h
      · simp only [lookup, if_neg h1] at h
        rcases List.mem_cons.mp hmem with h2 | h2
        · exact h1 (by rw [← h2])
        · exact ih.mp h d h2
    · intro h
      by_cases h1 : p.1 = k
      · exact absurd (List.mem_cons_self p rest)
          (by have := h p.2; rw [show (k, p.2) = p from Prod.ext h1.symm rfl] at this; exact this)
      · simp only [lookup, if_neg h1]
        exact ih.mpr (fun d hd => h d (List.mem_cons_of_mem p hd))

theorem lookup_mem {s : Objects} {k : Key} {d : Doc}
    (h : lookup s k = some d) : (k, d) ∈ s := by
  induction s with
  | nil => simp [lookup] at h
  | cons p rest ih =>
    by_cases h1 : p.1 = k
    · simp only [lookup, if_pos h1, Option.some.injEq] at h
      exact List.mem_cons.mpr (Or.inl (Prod.ext h1.symm h.symm))
    · simp only [lookup, if_neg h1] at h
      exact List.mem_cons_of_mem p (ih h)

theorem lookup_isSome_ne_none {s : Objects} {k : Key}
    (h : (lookup s k).isSome) : lookup s k ≠ none := by
  intro hc
  rw [hc] at h
  simp at h

theorem mapE_mem_fwd {f : α → Except Exc β} {l : List α} {r : List β}
    (h : mapE f l = .ok r) {a : α} (ha : a ∈ l) :
    ∃ b, f a = .ok b ∧ b ∈ r := by
  induction l generalizing r with
  | nil => simp at ha
  | cons x rest ih =>
    simp only [mapE] at h
    cases hx : f x with
    | error e => rw [hx] at h; exact absurd h (by simp)
    | ok b =>
      rw [hx] at h
      cases hrest : mapE f rest with
      | error e => rw [hrest] at h; exact absurd h (by simp)
      | ok bs =>
        rw [hrest] at h
        simp only [Except.ok.injEq] at h
        subst h
        rcases List.mem_cons.mp ha with h1 | h1
        · exact ⟨b, h1 ▸ hx, List.mem_cons_self b bs⟩
        · rcases ih hrest h1 with ⟨b2, hb2, hb2m⟩
          exact ⟨b2, hb2, List.mem_cons_of_mem b hb2m⟩

theorem mapE_mem_rev {f : α → Except Exc β} {l : List α} {r : List β}
    (h : mapE f l = .ok r) {b : β} (hb : b ∈ r) :
    ∃ a, a ∈ l ∧ f a = .ok b := by
  induction l generalizing r with
  | nil =>
    simp only [mapE, Except.ok.injEq] at h
    subst h
    simp at hb
  | cons x rest ih =>
    simp only [mapE] at h
    cases hx : f x with
    | error e => rw [hx] at h; exact absurd h (by simp)
    | ok b1 =>
      rw [hx] at h
      cases hrest : mapE f rest with
      | error e => rw [hrest] at h; exact absurd h (by simp)
      | ok bs =>
        rw [hrest] at h
        simp only [Except.ok.injEq] at h
        subst h
        rcases List.mem_cons.mp hb with h1 | h1
        · exact ⟨x, List.mem_cons_self x rest, h1 ▸ hx⟩
        · rcases ih hrest h1 with ⟨a, ham, hav⟩
          exact ⟨a, List.mem_cons_of_mem x ham, hav⟩

theorem mapE_ok_of_forall {f : α → Except Exc β} {l : List α}
    (h : ∀ a ∈ l, ∃ b, f a = .ok b) :
    ∃ r, mapE f l = .ok r := by
  induction l with
  | nil => exact ⟨[], rfl⟩
  | cons x rest ih =>
    rcases h x (List.mem_cons_self x rest) with ⟨b, hb⟩
    rcases ih (fun a ha => h a (List.mem_cons_of_mem x ha)) with ⟨bs, hbs⟩
    exact ⟨b :: bs, by simp [mapE, hb, hbs]⟩

theorem mem_sorted_by_created {l : List Doc} {d : Doc} :
    d ∈ sorted_by_created l ↔ d ∈ l := by
  exact List.mem_insertionSort created_rel

theorem mem_objects_under {s : Objects} {p : PathQuery} {d : Doc} :
    d ∈ objects_under s p ↔ ∃ q ∈ s, key_under q.1 p = true ∧ q.2 = d := by
  simp only [objects_under, List.mem_map, List.mem_filter]
  constructor
  · rintro ⟨q, ⟨hq, hu⟩, hd⟩
    exact ⟨q, hq, hu, hd⟩
  · rintro ⟨q, hq, hu, hd⟩
    exact ⟨q, ⟨hq, hu⟩, hd⟩

theorem mem_read_json_objects {s : Objects} {p : PathQuery} {d : Doc} :
    d ∈ read_json_objects s p ↔ ∃ q ∈ s, key_under q.1 p = true ∧ q.2 = d := by
  rw [read_json_objects, mem_sorted_by_created, mem_objects_under]

theorem wf_pair_model {s : Objects} {D M : String} (h : wf_store s D M = true)
    {d m : String} {st : Option String} {doc : Doc}
    (hmem : (Key.modelMeta d m st, doc) ∈ s) :
    ∃ mm, doc = Doc.model mm ∧ mm.model_id = m := by
  have hall : s.all pair_path_ok = true := by
    have := h
    unfold wf_store at this
    exact (Bool.and_eq_true _ _ |>.mp this).1
  have hp := List.all_eq_true.mp hall _ hmem
  cases doc with
  | model mm =>
    refine ⟨mm, rfl, ?_⟩
    simpa [pair_path_ok] using hp
  | state n c => simp [pair_path_ok] at hp

theorem wf_pair_state {s : Objects} {D M : String} (h : wf_store s D M = true)
    {n : String} {doc : Doc}
    (hmem : (Key.stateRegistry n, doc) ∈ s) :
    ∃ c, doc = Doc.state n c := by
  have hall : s.all pair_path_ok = true := by
    have := h
    unfold wf_store at this
    exact (Bool.and_eq_true _ _ |>.mp this).1
  have hp := List.all_eq_true.mp hall _ hmem
  cases doc with
  | model mm => simp [pair_path_ok] at hp
  | state n2 c =>
    refine ⟨c, ?_⟩
    have : n2 = n := by simpa [pair_path_ok] using hp
    rw [this]

theorem wf_assigned {s : Objects} {D M : String} (h : wf_store s D M = true)
    {st : String} {doc : Doc}
    (hmem : (Key.modelMeta D M (some st), doc) ∈ s)
    (hne : st ≠ RESERVED_DELETED) :
    is_valid_state_name st = true ∧ (lookup s (Key.stateRegistry st)).isSome := by
  have hall : states_registered s D M = true := by
    have := h
    unfold wf_store at this
    exact (Bool.and_eq_true _ _ |>.mp this).2
  have hp := List.all_eq_true.mp hall _ hmem
  simp only [states_registered] at hp
  rw [if_pos (by simp [hne])] at hp
  exact Bool.and_eq_true _ _ |>.mp hp

theorem state_exists_true_iff {io : List Key} {s : Objects} {n : String} :
    state_exists io s n = true ↔
      (Key.stateRegistry n ∉ io ∧ (lookup s (Key.stateRegistry n)).isSome) := by
  unfold state_exists pull_object
  by_cases hio : Key.stateRegistry n ∈ io
  · simp [hio]
  · cases h : lookup s (Key.stateRegistry n) <;> simp [hio, h]

theorem key_under_models {k : Key} {D : String} {stOpt : Option String}
    (h : key_under k (PathQuery.models D stOpt) = true) :
    ∃ m, k = Key.modelMeta D m stOpt := by
  cases k with
  | modelMeta d m st =>
    simp only [key_under, decide_eq_true_eq] at h
    exact ⟨m, by rw [h.1, h.2]⟩
  | domainLatest d => simp [key_under] at h
  | stateRegistry n => simp [key_under] at h
  | archive d f => simp [key_under] at h

theorem mem_remove_key_of_mem {p : Key × Doc} {s : Objects} {k : Key}
    (h : p ∈ s) (hne : p.1 ≠ k) : p ∈ remove_key s k := by
  induction s with
  | nil => simp at h
  | cons q rest ih =>
    rcases List.mem_cons.mp h with h1 | h1
    · subst h1
      rw [remove_key, if_neg hne]
      exact List.mem_cons_self p _
    · by_cases hq : q.1 = k
      · rw [remove_key, if_pos hq]
        exact ih h1
      · rw [remove_key, if_neg hq]
        exact List.mem_cons_of_mem q (ih h1)

/-- Case analysis of `get_meta_data` by presence of the canonical object
and the tombstone (shared by several claims). -/
theorem get_meta_data_outcome (io : List Key) (s : Objects) (D M : String)
    (hD : D ≠ "") (hM : M ≠ "")
    (h1 : Key.modelMeta D M none ∉ io)
    (h2 : Key.modelMeta D M (some RESERVED_DELETED) ∉ io) :
    (∀ d, lookup s (Key.modelMeta D M none) = some d →
      get_meta_data io s D M = .ok d)
    ∧ (lookup s (Key.modelMeta D M none) = none →
       lookup s (Key.modelMeta D M (some RESERVED_DELETED)) ≠ none →
       get_meta_data io s D M = .error (.modelDeleted D M))
    ∧ (lookup s (Key.modelMeta D M none) = none →
       lookup s (Key.modelMeta D M (some RESERVED_DELETED)) = none →
       get_meta_data io s D M = .error (.modelNotFound D M)) := by
  have hguard : ¬ (D = "" ∨ M = "") := by simp [hD, hM]
  refine ⟨?_, ?_, ?_⟩
  · intro d hd
    simp [get_meta_data, get_meta_data_run, hguard, pull_object, h1, hd]
  · intro hc ht
    cases hts : lookup s (Key.modelMeta D M (some RESERVED_DELETED)) with
    | none => exact absurd hts ht
    | some d =>
      simp [get_meta_data, get_meta_data_run, hguard, pull_object, h1, h2, hc, hts]
  · intro hc ht
    simp [get_meta_data, get_meta_data_run, hguard, pull_object, h1, h2, hc, ht]

/-- Inversion of a successful `list_model_states`: every returned name is
valid, and every well-formed registry entry with a valid name is
returned. -/
theorem list_model_states_spec {s1 : Objects} {states : List String}
    (h : list_model_states s1 = .ok states) :
    (∀ st ∈ states, is_valid_state_name st = true)
    ∧ (∀ n c, (Key.stateRegistry n, Doc.state n c) ∈ s1 →
        is_valid_state_name n = true → n ∈ states) := by
  unfold list_model_states at h
  cases hm : mapE doc_state_name_e (read_json_objects s1 PathQuery.states) with
  | error e => rw [hm] at h; exact absurd h (by simp)
  | ok names =>
    rw [hm] at h
    simp only [Except.ok.injEq] at h
    subst h
    constructor
    · intro st hst
      exact (List.mem_filter.mp hst).2
    · intro n c hmem hval
      have hdoc : Doc.state n c ∈ read_json_objects s1 PathQuery.states := by
        rw [mem_read_json_objects]
        exact ⟨(Key.stateRegistry n, Doc.state n c), hmem, rfl, rfl⟩
      rcases mapE_mem_fwd hm hdoc with ⟨b, hb, hbm⟩
      simp only [doc_state_name_e, Except.ok.injEq] at hb
      subst hb
      exact List.mem_filter.mpr ⟨hbm, hval⟩

/-- Inversion of a successful run of the unset loop of `delete_model`:
only the state-scoped copies of `(D, M)` for the listed states are
touched, each of them ends up removed, every listed state had a registry
object that could be pulled, and every intermediate store agrees with the
initial one outside the state-scoped copies of `(D, M)`. -/
theorem unset_all_spec {io : List Key} {D M : String} {states : List String}
    {s1 s2 : Objects} {tr : List Objects}
    (hv : ∀ st ∈ states, is_valid_state_name st = true)
    (h : unset_all_run io D M states s1 = (.ok s2, tr)) :
    (∀ k, (∀ st ∈ states, k ≠ Key.modelMeta D M (some st)) →
      lookup s2 k = lookup s1 k)
    ∧ (∀ st ∈ states, lookup s2 (Key.modelMeta D M (some st)) = none)
    ∧ (∀ p ∈ s2, p ∈ s1)
    ∧ (∀ st ∈ states,
        Key.stateRegistry st ∉ io ∧ (lookup s1 (Key.stateRegistry st)).isSome)
    ∧ (∀ t ∈ tr, ∀ k, (∀ st : String, k ≠ Key.modelMeta D M (some st)) →
        lookup t k = lookup s1 k) := by
  induction states generalizing s1 tr with
  | nil =>
    simp only [unset_all_run, Prod.mk.injEq] at h
    obtain ⟨h1, h2⟩ := h
    simp only [Except.ok.injEq] at h1
    subst h1
    subst h2
    refine ⟨fun k _ => rfl, by simp, fun p hp => hp, by simp, by simp⟩
  | cons st rest ih =>
    have hstv : is_valid_state_name st = true := hv st (List.mem_cons_self st rest)
    have hstr : is_reserved_state st = false := by
      unfold is_valid_state_name at hstv
      rcases Bool.and_eq_true _ _ |>.mp hstv with ⟨_, h2⟩
      simp only [Bool.not_eq_true'] at h2
      exact h2
    simp only [unset_all_run, unset_model_state_run, hstr, Bool.false_eq_true,
      if_false] at h
    cases hse : state_exists io s1 st with
    | false =>
      rw [hse] at h
      simp at h
    | true =>
      rw [hse] at h
      simp only [Bool.not_true, Bool.false_eq_true, if_false] at h
      cases hrec : unset_all_run io D M rest
          (remove_key s1 (Key.modelMeta D M (some st))) with
      | mk r tr2 =>
        rw [hrec] at h
        simp only [Prod.mk.injEq] at h
        obtain ⟨hr, htr⟩ := h
        subst hr
        subst htr
        have hexf := state_exists_true_iff.mp hse
        rcases ih (fun x hx => hv x (List.mem_cons_of_mem st hx)) hrec with
          ⟨ih1, ih2, ih3, ih4, ih5⟩
        refine ⟨?_, ?_, ?_, ?_, ?_⟩
        · intro k hk
          have hkst : k ≠ Key.modelMeta D M (some st) :=
            hk st (List.mem_cons_self st rest)
          rw [ih1 k (fun x hx => hk x (List.mem_cons_of_mem st hx)),
            lookup_remove_key, if_neg hkst]
        · intro st2 hst2
          rcases List.mem_cons.mp hst2 with h1 | h1
          · subst h1
            by_cases hmem : st2 ∈ rest
            · exact ih2 st2 hmem
            · rw [ih1 _ (fun x hx => by
                  intro hc
                  have : st2 = x := by
                    have := congrArg (fun kk => match kk with
                      | Key.modelMeta _ _ (some y) => y
                      | _ => "") hc
                    simpa using this
                  exact hmem (this ▸ hx)),
                lookup_remove_key, if_pos rfl]
          · exact ih2 st2 h1
        · intro p hp
          exact (mem_remove_key (ih3 p hp)).1
        · intro st2 hst2
          rcases List.mem_cons.mp hst2 with h1 | h1
          · subst h1
            exact hexf
          · rcases ih4 st2 h1 with ⟨hio2, hlk2⟩
            refine ⟨hio2, ?_⟩
            rw [lookup_remove_key, if_neg (by intro hc; cases hc)] at hlk2
            exact hlk2
        · intro t ht k hk
          rcases List.mem_cons.mp ht with h1 | h1
          · subst h1
            rw [lookup_remove_key, if_neg (hk st)]
          · rw [ih5 t h1 k hk, lookup_remove_key, if_neg (hk st)]

theorem pull_ok_inv {io : List Key} {s : Objects} {k : Key} {d : Doc}
    (h : pull_object io s k = .ok d) : k ∉ io ∧ lookup s k = some d := by
  unfold pull_object at h
  by_cases hio : k ∈ io
  · rw [if_pos hio] at h
    exact absurd h (by simp)
  · rw [if_neg hio] at h
    refine ⟨hio, ?_⟩
    cases hl : lookup s k with
    | none => rw [hl] at h; exact absurd h (by simp)
    | some d2 =>
      rw [hl] at h
      simp only [Except.ok.injEq] at h
      rw [h]

/-- Inversion of a successful `set_model_state` to the reserved deleted
state: the registry entry for "deleted" may be auto-created, the canonical
metadata is pulled (so it was present and reachable), and the tombstone
copy is pushed. -/
theorem set_model_state_deleted_spec {io : List Key} {s2 : Objects} {now : Nat}
    {D M : String} {s3 : Objects} {tr2 : List Objects}
    (h : set_model_state_run io s2 now D M RESERVED_DELETED = (.ok s3, tr2)) :
    ∃ sa cm,
      (∀ k, k ≠ Key.stateRegistry RESERVED_DELETED → lookup sa k = lookup s2 k)
      ∧ (∀ p ∈ sa,
          p = (Key.stateRegistry RESERVED_DELETED, Doc.state RESERVED_DELETED now)
          ∨ p ∈ s2)
      ∧ Key.modelMeta D M none ∉ io
      ∧ lookup s2 (Key.modelMeta D M none) = some cm
      ∧ s3 = push_object sa (Key.modelMeta D M (some RESERVED_DELETED)) cm
      ∧ (tr2 = [s3] ∨ tr2 = [sa, s3]) := by
  have hres : is_reserved_state RESERVED_DELETED = true := by decide
  simp only [set_model_state_run, create_model_state_run, hres, Bool.not_true,
    Bool.false_and, Bool.false_eq_true, if_false, if_true] at h
  by_cases hse : state_exists io s2 RESERVED_DELETED
  · rw [if_pos hse] at h
    cases hp : pull_object io s2 (Key.modelMeta D M none) with
    | error e => simp [hp] at h
    | ok cm =>
      simp only [hp, List.nil_append, Prod.mk.injEq, Except.ok.injEq] at h
      obtain ⟨h1, h2⟩ := h
      rcases pull_ok_inv hp with ⟨hio, hlk⟩
      exact ⟨s2, cm, fun k _ => rfl, fun p hp2 => Or.inr hp2, hio, hlk,
        h1.symm, Or.inl (by rw [← h1]; exact h2.symm)⟩
  · rw [if_neg hse] at h
    cases hp : pull_object io
        (push_object s2 (Key.stateRegistry RESERVED_DELETED)
          (Doc.state RESERVED_DELETED now))
        (Key.modelMeta D M none) with
    | error e => simp [hp] at h
    | ok cm =>
      simp only [hp, List.singleton_append, Prod.mk.injEq, Except.ok.injEq] at h
      obtain ⟨h1, h2⟩ := h
      rcases pull_ok_inv hp with ⟨hio, hlk⟩
      refine ⟨_, cm, ?_, ?_, hio, ?_, h1.symm, Or.inr (by rw [← h1]; exact h2.symm)⟩
      · intro k hk
        rw [lookup_push_object, if_neg hk]
      · intro p hp2
        rcases mem_push_object hp2 with h3 | h3
        · exact Or.inl h3
        · exact Or.inr h3.1
      · rw [lookup_push_object, if_neg (by intro hc; cases hc)] at hlk
        exact hlk

theorem archive_ne {k : Key} (h : key_is_archive k = true) :
    (∀ d m st, Key.modelMeta d m st ≠ k)
    ∧ (∀ n, Key.stateRegistry n ≠ k)
    ∧ (∀ d, Key.domainLatest d ≠ k) := by
  cases k with
  | archive a b =>
    refine ⟨fun d m st hc => ?_, fun n hc => ?_, fun d hc => ?_⟩ <;> cases hc
  | modelMeta a b c => simp [key_is_archive] at h
  | domainLatest a => simp [key_is_archive] at h
  | stateRegistry a => simp [key_is_archive] at h

/-- Characterization of a successful `delete_model` on a well-formed
store: the canonical record and every user-state copy of `(D, M)` are
gone, the tombstone copy of the canonical record is present, and every
key not involved in the deletion is untouched. -/
theorem delete_model_ok_spec {io : List Key} {s : Objects} {now : Nat}
    {D M : String} {meta : ModelMeta} {s4 : Objects} {tr : List Objects}
    (hwf : wf_store s D M = true)
    (harch : key_is_archive meta.storage = true)
    (h : delete_model_run io s now D M meta = (.ok s4, tr)) :
    ∃ mm : ModelMeta,
      lookup s (Key.modelMeta D M none) = some (Doc.model mm)
      ∧ mm.model_id = M
      ∧ Key.modelMeta D M none ∉ io
      ∧ lookup s4 (Key.modelMeta D M none) = none
      ∧ (∀ st : String, st ≠ RESERVED_DELETED →
          lookup s4 (Key.modelMeta D M (some st)) = none)
      ∧ lookup s4 (Key.modelMeta D M (some RESERVED_DELETED)) = some (Doc.model mm)
      ∧ (∀ k, k ≠ Key.modelMeta D M none →
          (∀ st : String, k ≠ Key.modelMeta D M (some st)) →
          k ≠ Key.stateRegistry RESERVED_DELETED →
          k ≠ meta.storage →
          lookup s4 k = lookup s k)
      ∧ (∀ p ∈ s4, p.1 = Key.modelMeta D M (some RESERVED_DELETED)
          ∨ p = (Key.stateRegistry RESERVED_DELETED, Doc.state RESERVED_DELETED now)
          ∨ p ∈ s)
      ∧ (∀ st : String, st ≠ RESERVED_DELETED →
          (lookup s (Key.modelMeta D M (some st))).isSome →
          Key.stateRegistry st ∉ io) := by
  rcases archive_ne harch with ⟨hA1, hA2, _⟩
  simp only [delete_model_run] at h
  cases hls : list_model_states (remove_key s meta.storage) with
  | error e => simp [hls] at h
  | ok states =>
  cases hua : unset_all_run io D M states (remove_key s meta.storage) with
  | mk r1 tru =>
  cases r1 with
  | error e => simp [hls, hua] at h
  | ok s2 =>
  cases hsms : set_model_state_run io s2 now D M RESERVED_DELETED with
  | mk r2 tr2 =>
  cases r2 with
  | error e => simp [hls, hua, hsms] at h
  | ok s3 =>
  simp only [hls, hua, hsms, Prod.mk.injEq, Except.ok.injEq] at h
  obtain ⟨h4, _⟩ := h
  subst h4
  rcases list_model_states_spec hls with ⟨hv, hreg⟩
  rcases unset_all_spec hv hua with ⟨f1, f2, f3, f4, _⟩
  rcases set_model_state_deleted_spec hsms with ⟨sa, cm, g1, g2, gio, glk, g3, _⟩
  have hstep : lookup s2 (Key.modelMeta D M none) = lookup s (Key.modelMeta D M none) := by
    rw [f1 _ (fun st _ => by intro hc; simp at hc), lookup_remove_key,
      if_neg (hA1 D M none)]
  have hcanon : lookup s (Key.modelMeta D M none) = some cm := by
    rw [← hstep]; exact glk
  rcases wf_pair_model hwf (lookup_mem hcanon) with ⟨mm, hcm, hmm_id⟩
  subst hcm
  have hassigned_mem : ∀ st : String, st ≠ RESERVED_DELETED →
      (lookup s (Key.modelMeta D M (some st))).isSome → st ∈ states := by
    intro st hne hsome
    rcases Option.isSome_iff_exists.mp hsome with ⟨doc, hdoc⟩
    rcases wf_assigned hwf (lookup_mem hdoc) hne with ⟨hval, hrsome⟩
    rcases Option.isSome_iff_exists.mp hrsome with ⟨doc2, hdoc2⟩
    rcases wf_pair_state hwf (lookup_mem hdoc2) with ⟨c, hc⟩
    subst hc
    exact hreg st c (mem_remove_key_of_mem (lookup_mem hdoc2) (hA2 st)) hval
  refine ⟨mm, hcanon, hmm_id, gio, ?_, ?_, ?_, ?_, ?_, ?_⟩
  · rw [lookup_remove_key, if_pos rfl]
  · intro st hne
    rw [lookup_remove_key, if_neg (by intro hc; simp at hc), g3,
      lookup_push_object,
      if_neg (by intro hc; simp only [Key.modelMeta.injEq, Option.some.injEq,
        true_and] at hc; exact hne hc),
      g1 _ (by intro hc; cases hc)]
    by_cases hmem : st ∈ states
    · exact f2 st hmem
    · rw [f1 _ (fun x hx => by
          intro hc
          simp only [Key.modelMeta.injEq, Option.some.injEq, true_and] at hc
          exact hmem (hc ▸ hx)),
        lookup_remove_key, if_neg (hA1 D M (some st))]
      cases hlk : lookup s (Key.modelMeta D M (some st)) with
      | none => rfl
      | some doc =>
        exact absurd (hassigned_mem st hne (by rw [hlk]; rfl)) hmem
  · rw [lookup_remove_key, if_neg (by intro hc; simp at hc), g3,
      lookup_push_object, if_pos rfl]
  · intro k hk1 hk2 hk3 hk4
    rw [lookup_remove_key, if_neg hk1, g3, lookup_push_object,
      if_neg (hk2 RESERVED_DELETED), g1 _ hk3,
      f1 _ (fun st _ => hk2 st), lookup_remove_key, if_neg hk4]
  · intro p hp
    rcases mem_remove_key hp with ⟨hp2, _⟩
    rw [g3] at hp2
    rcases mem_push_object hp2 with h5 | ⟨h5, _⟩
    · exact Or.inl (by rw [h5])
    · rcases g2 p h5 with h7 | h7
      · exact Or.inr (Or.inl h7)
      · exact Or.inr (Or.inr (mem_remove_key (f3 p h7)).1)
  · intro st hne hsome
    exact (f4 st (hassigned_mem st hne hsome)).1

/-- A successful, `M`-free `list_models` call: if the state filter guard
passes, the domain-latest object is reachable, and every object under the
queried prefix is a model record with id different from `M`, then
`list_models` succeeds and its result does not contain `M`. -/
theorem list_models_ok_and_excludes {io : List Key} {s : Objects}
    {D M : String} {stOpt : Option String}
    (hguard : (state_name_truthy stOpt
      && !(state_exists io s (stOpt.getD ""))) = false)
    (hdlio : Key.domainLatest D ∉ io)
    (hdl : (lookup s (Key.domainLatest D)).isSome)
    (hdocs : ∀ p ∈ s, key_under p.1 (PathQuery.models D stOpt) = true →
      ∃ mm, p.2 = Doc.model mm ∧ mm.model_id ≠ M) :
    ∃ ids, list_models io s D stOpt = .ok ids ∧ M ∉ ids := by
  have hge : ∃ d, get_domain io s D = .ok d := by
    rcases Option.isSome_iff_exists.mp hdl with ⟨d, hd⟩
    exact ⟨d, by simp [get_domain, pull_object, hdlio, hd]⟩
  rcases hge with ⟨d, hd⟩
  have hall : ∀ doc ∈ read_json_objects s (PathQuery.models D stOpt),
      ∃ b, doc_model_id_e doc = .ok b := by
    intro doc hdoc
    rcases mem_read_json_objects.mp hdoc with ⟨q, hq, hu, hq2⟩
    rcases hdocs q hq hu with ⟨mm, hmm, _⟩
    exact ⟨mm.model_id, by rw [← hq2, hmm]; rfl⟩
  rcases mapE_ok_of_forall hall with ⟨ids, hids⟩
  refine ⟨ids, ?_, ?_⟩
  · simp only [list_models, hguard, Bool.false_eq_true, if_false, hd]
    exact hids
  · intro hM
    rcases mapE_mem_rev hids hM with ⟨doc, hdoc, hback⟩
    rcases mem_read_json_objects.mp hdoc with ⟨q, hq, hu, hq2⟩
    rcases hdocs q hq hu with ⟨mm, hmm, hne⟩
    rw [← hq2, hmm] at hback
    simp only [doc_model_id_e, Except.ok.injEq] at hback
    exact hne hback

/-- C1: `get_meta_data(domain, model_id)` has exactly a three-way outcome:
if the canonical metadata object is present it is decoded and returned; if
it is absent but a tombstone object exists at the reserved-deleted state
path, the call fails with `ModelDeleted`; if neither is present, the call
fails with `ModelNotFound`.  (Stated for well-formed arguments and keys
the backend can reach; unreachable keys are the separate transport-error
outcome.) -/
theorem spec_c1_get_meta_data_three_way (io : List Key) (s : Objects)
    (D M : String) (hD : D ≠ "") (hM : M ≠ "")
    (h1 : Key.modelMeta D M none ∉ io)
    (h2 : Key.modelMeta D M (some RESERVED_DELETED) ∉ io) :
    (∀ d, lookup s (Key.modelMeta D M none) = some d →
      get_meta_data io s D M = .ok d)
    ∧ (lookup s (Key.modelMeta D M none) = none →
       lookup s (Key.modelMeta D M (some RESERVED_DELETED)) ≠ none →
       get_meta_data io s D M = .error (.modelDeleted D M))
    ∧ (lookup s (Key.modelMeta D M none) = none →
       lookup s (Key.modelMeta D M (some RESERVED_DELETED)) = none →
       get_meta_data io s D M = .error (.modelNotFound D M)) :=
  get_meta_data_outcome io s D M hD hM h1 h2

theorem spec_c1_witness :
    get_meta_data [] present_store "sales" "m1" = .ok (Doc.model demo_meta)
    ∧ get_meta_data [] tomb_store "sales" "m1"
        = .error (.modelDeleted "sales" "m1")
    ∧ get_meta_data [] [] "sales" "m1" = .error (.modelNotFound "sales" "m1") :=
  ⟨(spec_c1_get_meta_data_three_way [] present_store "sales" "m1"
      (by decide) (by decide) (by simp) (by simp)).1 (Doc.model demo_meta)
      (by decide),
   (spec_c1_get_meta_data_three_way [] tomb_store "sales" "m1"
      (by decide) (by decide) (by simp) (by simp)).2.1 (by decide) (by decide),
   (spec_c1_get_meta_data_three_way [] [] "sales" "m1"
      (by decide) (by decide) (by simp) (by simp)).2.2 rfl rfl⟩

/-- C10: when `domain` or `model_id` is `None` or the empty string,
`get_meta_data` fails immediately with a `ValueError` and the pull trace is
empty, so no backend call is made (the operation performs no writes at
all, so the stored objects are untouched). -/
theorem spec_c10_get_meta_data_guard (io : List Key) (s : Objects)
    (domain model_id : Option String)
    (h : domain = none ∨ domain = some "" ∨ model_id = none ∨ model_id = some "") :
    get_meta_data_opt_run io s domain model_id
      = (.error (.valueError "domain and model_id must be set"), []) := by
  have hu : (arg_unset domain || arg_unset model_id) = true := by
    rcases h with h | h | h | h <;> subst h <;> simp [arg_unset]
  simp [get_meta_data_opt_run, hu]

theorem spec_c10_witness :
    get_meta_data_opt_run [] demo_store none (some "m1")
      = (.error (.valueError "domain and model_id must be set"), [])
    ∧ get_meta_data_opt_run [] demo_store (some "sales") (some "")
      = (.error (.valueError "domain and model_id must be set"), []) :=
  ⟨spec_c10_get_meta_data_guard [] demo_store none (some "m1") (Or.inl rfl),
   spec_c10_get_meta_data_guard [] demo_store (some "sales") (some "")
     (Or.inr (Or.inr (Or.inr rfl)))⟩

/-- C3: in `delete_model`, the tombstone copy is written strictly before
the canonical metadata object is removed: in every intermediate store of a
successful run after the archive removal (the run trace), the canonical
object or the tombstone is present. -/
theorem spec_c3_tombstone_before_canonical_removal (io : List Key)
    (s : Objects) (now : Nat) (D M : String) (meta : ModelMeta)
    (s4 : Objects) (tr : List Objects)
    (h : delete_model_run io s now D M meta = (.ok s4, tr)) :
    ∀ t ∈ tr, lookup t (Key.modelMeta D M none) ≠ none
      ∨ lookup t (Key.modelMeta D M (some RESERVED_DELETED)) ≠ none := by
  simp only [delete_model_run] at h
  cases hls : list_model_states (remove_key s meta.storage) with
  | error e => simp [hls] at h
  | ok states =>
  cases hua : unset_all_run io D M states (remove_key s meta.storage) with
  | mk r1 tru =>
  cases r1 with
  | error e => simp [hls, hua] at h
  | ok s2 =>
  cases hsms : set_model_state_run io s2 now D M RESERVED_DELETED with
  | mk r2 tr2 =>
  cases r2 with
  | error e => simp [hls, hua, hsms] at h
  | ok s3 =>
  simp only [hls, hua, hsms, Prod.mk.injEq, Except.ok.injEq] at h
  obtain ⟨_, htr⟩ := h
  subst htr
  rcases list_model_states_spec hls with ⟨hv, _⟩
  rcases unset_all_spec hv hua with ⟨f1, _, _, _, f5⟩
  rcases set_model_state_deleted_spec hsms with ⟨sa, cm, g1, _, _, glk, g3, gtr⟩
  have hs1 : lookup (remove_key s meta.storage) (Key.modelMeta D M none)
      = some cm := by
    rw [← f1 _ (fun st _ => by intro hc; simp at hc)]
    exact glk
  have hs3tomb : lookup s3 (Key.modelMeta D M (some RESERVED_DELETED)) ≠ none := by
    rw [g3, lookup_push_object, if_pos rfl]
    simp
  have hsacan : lookup sa (Key.modelMeta D M none) ≠ none := by
    rw [g1 _ (by intro hc; cases hc), glk]
    simp
  intro t ht
  rcases List.mem_cons.mp ht with h5 | h5
  · subst h5
    left
    rw [hs1]
    simp
  rcases List.mem_append.mp h5 with h6 | h6
  · rcases List.mem_append.mp h6 with h7 | h7
    · left
      rw [f5 t h7 _ (fun st => by intro hc; simp at hc), hs1]
      simp
    · rcases gtr with hg | hg <;> rw [hg] at h7
      · rw [List.mem_singleton.mp h7]
        exact Or.inr hs3tomb
      · rcases List.mem_cons.mp h7 with h8 | h8
        · subst h8
          exact Or.inl hsacan
        · rw [List.mem_singleton.mp h8]
          exact Or.inr hs3tomb
  · rw [List.mem_singleton.mp h6]
    right
    rw [lookup_remove_key, if_neg (by intro hc; simp at hc), g3,
      lookup_push_object, if_pos rfl]
    simp

theorem spec_c3_witness :
    lookup (remove_key demo_store demo_meta.storage)
        (Key.modelMeta "sales" "m1" none) ≠ none
    ∨ lookup (remove_key demo_store demo_meta.storage)
        (Key.modelMeta "sales" "m1" (some RESERVED_DELETED)) ≠ none :=
  spec_c3_tombstone_before_canonical_removal [] demo_store 9 "sales" "m1"
    demo_meta demo_deleted
    ((delete_model_run [] demo_store 9 "sales" "m1" demo_meta).2)
    (by rfl)
    (remove_key demo_store demo_meta.storage) (by decide)

/-- C9: for every reserved state name, `unset_model_state` returns without
error and performs no backend write (the store is returned unchanged and
the write trace is empty); in particular, after `delete_model`, calling
`unset_model_state(D, M, "deleted")` returns the store unchanged and
`get_meta_data(D, M)` still fails with `ModelDeleted`. -/
theorem spec_c9_unset_reserved_noop (io : List Key) (s s4 : Objects)
    (now : Nat) (D M : String) (meta : ModelMeta)
    (hD : D ≠ "") (hM : M ≠ "")
    (hwf : wf_store s D M = true)
    (harch : key_is_archive meta.storage = true)
    (htio : Key.modelMeta D M (some RESERVED_DELETED) ∉ io)
    (hdel : delete_model io s now D M meta = .ok s4) :
    (∀ (s0 : Objects) (st : String), is_reserved_state st = true →
      unset_model_state_run io s0 D M st = (.ok s0, []))
    ∧ unset_model_state io s4 D M RESERVED_DELETED = .ok s4
    ∧ get_meta_data io s4 D M = .error (.modelDeleted D M) := by
  have hnoop : ∀ (s0 : Objects) (st : String), is_reserved_state st = true →
      unset_model_state_run io s0 D M st = (.ok s0, []) := by
    intro s0 st hst
    simp [unset_model_state_run, hst]
  refine ⟨hnoop, ?_, ?_⟩
  · rw [unset_model_state, hnoop s4 RESERVED_DELETED (by decide)]
  · cases hr : delete_model_run io s now D M meta with
    | mk r1 tr =>
      have hr1 : r1 = .ok s4 := by
        have h2 : (delete_model_run io s now D M meta).1 = .ok s4 := hdel
        rw [hr] at h2
        exact h2
      subst hr1
      rcases delete_model_ok_spec hwf harch hr with
        ⟨mm, _, _, q3, q4, _, q6, _, _, _⟩
      exact (get_meta_data_outcome io s4 D M hD hM q3 htio).2.1 q4
        (by rw [q6]; simp)

theorem spec_c9_witness :
    unset_model_state_run [] demo_deleted "sales" "m1" RESERVED_DELETED
      = (.ok demo_deleted, [])
    ∧ unset_model_state [] demo_deleted "sales" "m1" RESERVED_DELETED
      = .ok demo_deleted
    ∧ get_meta_data [] demo_deleted "sales" "m1"
      = .error (.modelDeleted "sales" "m1") :=
  let h := spec_c9_unset_reserved_noop [] demo_store demo_deleted 9 "sales" "m1"
    demo_meta (by decide) (by decide) (by decide) (by decide) (by simp) (by rfl)
  ⟨h.1 demo_deleted RESERVED_DELETED (by decide), h.2.1, h.2.2⟩

/-- C2: after a successful `delete_model(D, M, meta)` on a well-formed
store, the canonical metadata record and every user-state copy of M are
gone, only the tombstone at the reserved-deleted path survives,
`get_meta_data(D, M)` fails with `ModelDeleted` (not `ModelNotFound`), and
`list_models(D)` no longer contains M, including when filtered by any
state M was previously assigned to. -/
theorem spec_c2_delete_model_net_effect (io : List Key) (s s4 : Objects)
    (now : Nat) (D M : String) (meta : ModelMeta)
    (hD : D ≠ "") (hM : M ≠ "")
    (hwf : wf_store s D M = true)
    (harch : key_is_archive meta.storage = true)
    (hdl : (lookup s (Key.domainLatest D)).isSome)
    (hdlio : Key.domainLatest D ∉ io)
    (htio : Key.modelMeta D M (some RESERVED_DELETED) ∉ io)
    (hdel : delete_model io s now D M meta = .ok s4) :
    lookup s4 (Key.modelMeta D M none) = none
    ∧ (∀ st : String, st ≠ RESERVED_DELETED →
        lookup s4 (Key.modelMeta D M (some st)) = none)
    ∧ (∃ mm, lookup s4 (Key.modelMeta D M (some RESERVED_DELETED))
        = some (Doc.model mm) ∧ mm.model_id = M)
    ∧ get_meta_data io s4 D M = .error (.modelDeleted D M)
    ∧ (∃ ids, list_models io s4 D none = .ok ids ∧ M ∉ ids)
    ∧ (∀ st : String, is_valid_state_name st = true →
        (lookup s (Key.modelMeta D M (some st))).isSome →
        ∃ ids, list_models io s4 D (some st) = .ok ids ∧ M ∉ ids) := by
  rcases archive_ne harch with ⟨hA1, hA2, hA3⟩
  cases hr : delete_model_run io s now D M meta with
  | mk r1 tr =>
  have hr1 : r1 = .ok s4 := by
    have h2 : (delete_model_run io s now D M meta).1 = .ok s4 := hdel
    rw [hr] at h2
    exact h2
  subst hr1
  rcases delete_model_ok_spec hwf harch hr with
    ⟨mm, q1, q2, q3, q4, q5, q6, q7, q8, q9⟩
  have hdl4 : (lookup s4 (Key.domainLatest D)).isSome := by
    rw [q7 _ (by intro hc; cases hc) (fun st => by intro hc; cases hc)
      (by intro hc; cases hc) (hA3 D)]
    exact hdl
  refine ⟨q4, q5, ⟨mm, q6, q2⟩, ?_, ?_, ?_⟩
  · exact (get_meta_data_outcome io s4 D M hD hM q3 htio).2.1 q4
      (by rw [q6]; simp)
  · refine list_models_ok_and_excludes (by simp [state_name_truthy]) hdlio hdl4 ?_
    intro p hp hu
    rcases key_under_models hu with ⟨m2, hk⟩
    rcases q8 p hp with h5 | h5 | h5
    · rw [hk] at h5
      simp at h5
    · rw [h5] at hk
      simp at hk
    · have hps : (p.1, p.2) ∈ s := h5
      rw [hk] at hps
      rcases wf_pair_model hwf hps with ⟨mm2, hdoc, hid⟩
      refine ⟨mm2, hdoc, ?_⟩
      intro hc
      have hm2 : m2 = M := by rw [← hid, hc]
      subst hm2
      have hmem4 : (p.1, p.2) ∈ s4 := hp
      rw [hk] at hmem4
      exact lookup_eq_none_iff.mp q4 p.2 hmem4
  · intro st hval hsome
    have hne : st ≠ RESERVED_DELETED := by
      intro hc
      subst hc
      revert hval
      decide
    have hreg4 : (lookup s4 (Key.stateRegistry st)).isSome := by
      rw [q7 _ (by intro hc; cases hc) (fun st2 => by intro hc; cases hc)
        (by intro hc
            simp only [Key.stateRegistry.injEq] at hc
            exact hne hc) (hA2 st)]
      rcases Option.isSome_iff_exists.mp hsome with ⟨doc, hdoc⟩
      exact (wf_assigned hwf (lookup_mem hdoc) hne).2
    have hse : state_exists io s4 st = true :=
      state_exists_true_iff.mpr ⟨q9 st hne hsome, hreg4⟩
    refine list_models_ok_and_excludes
      (by simp [state_name_truthy, hse]) hdlio hdl4 ?_
    intro p hp hu
    rcases key_under_models hu with ⟨m2, hk⟩
    rcases q8 p hp with h5 | h5 | h5
    · rw [hk] at h5
      simp only [Key.modelMeta.injEq, Option.some.injEq, true_and] at h5
      exact absurd h5.2 hne
    · rw [h5] at hk
      simp at hk
    · have hps : (p.1, p.2) ∈ s := h5
      rw [hk] at hps
      rcases wf_pair_model hwf hps with ⟨mm2, hdoc, hid⟩
      refine ⟨mm2, hdoc, ?_⟩
      intro hc
      have hm2 : m2 = M := by rw [← hid, hc]
      subst hm2
      have hmem4 : (p.1, p.2) ∈ s4 := hp
      rw [hk] at hmem4
      exact lookup_eq_none_iff.mp (q5 st hne) p.2 hmem4

theorem spec_c2_witness :
    lookup demo_deleted (Key.modelMeta "sales" "m1" none) = none
    ∧ lookup demo_deleted (Key.modelMeta "sales" "m1" (some "prod")) = none
    ∧ (∃ mm, lookup demo_deleted (Key.modelMeta "sales" "m1" (some RESERVED_DELETED))
        = some (Doc.model mm) ∧ mm.model_id = "m1")
    ∧ get_meta_data [] demo_deleted "sales" "m1"
        = .error (.modelDeleted "sales" "m1")
    ∧ (∃ ids, list_models [] demo_deleted "sales" none = .ok ids ∧ "m1" ∉ ids)
    ∧ (∃ ids, list_models [] demo_deleted "sales" (some "prod") = .ok ids
        ∧ "m1" ∉ ids) :=
  let h := spec_c2_delete_model_net_effect [] demo_store demo_deleted 9 "sales"
    "m1" demo_meta (by decide) (by decide) (by decide) (by decide) (by decide)
    (by simp) (by simp) (by rfl)
  ⟨h.1, h.2.1 "prod" (by decide), h.2.2.1, h.2.2.2.1, h.2.2.2.2.1,
   h.2.2.2.2.2 "prod" (by decide) (by decide)⟩

/-- C5: after `set_meta_data(D, M, meta)` — the metadata persistence step
of a successful upload — the record is stored at both the canonical model
path and the domain-latest path, so `get_meta_data(D, M)` returns the
record (whose `model_id` equals M), `get_domain(D)` ("domain latest")
returns the new record, and `list_models(D)` contains M. -/
theorem spec_c5_upload_metadata_visible (io : List Key) (s : Objects)
    (D M : String) (meta : ModelMeta)
    (hD : D ≠ "") (hM : M ≠ "")
    (hid : meta.model_id = M)
    (hioc : Key.modelMeta D M none ∉ io)
    (hiod : Key.domainLatest D ∉ io)
    (hwp : ∀ p ∈ s, key_under p.1 (PathQuery.models D (none : Option String)) = true →
      ∃ mm : ModelMeta, p.2 = Doc.model mm) :
    lookup (set_meta_data s D M meta) (Key.modelMeta D M none)
      = some (Doc.model meta)
    ∧ lookup (set_meta_data s D M meta) (Key.domainLatest D)
      = some (Doc.model meta)
    ∧ get_meta_data io (set_meta_data s D M meta) D M = .ok (Doc.model meta)
    ∧ get_domain io (set_meta_data s D M meta) D = .ok (Doc.model meta)
    ∧ (∃ ids, list_models io (set_meta_data s D M meta) D none = .ok ids
        ∧ M ∈ ids) := by
  have hcan : lookup (set_meta_data s D M meta) (Key.modelMeta D M none)
      = some (Doc.model meta) := by
    unfold set_meta_data
    rw [lookup_push_object, if_neg (by intro hc; cases hc),
      lookup_push_object, if_pos rfl]
  have hlat : lookup (set_meta_data s D M meta) (Key.domainLatest D)
      = some (Doc.model meta) := by
    unfold set_meta_data
    rw [lookup_push_object, if_pos rfl]
  have hg : ¬(D = "" ∨ M = "") := by simp [hD, hM]
  have hmem2 : ∀ p ∈ set_meta_data s D M meta,
      p = (Key.domainLatest D, Doc.model meta)
      ∨ p = (Key.modelMeta D M none, Doc.model meta)
      ∨ p ∈ s := by
    intro p hp
    rcases mem_push_object hp with h1 | ⟨h1, _⟩
    · exact Or.inl h1
    · rcases mem_push_object h1 with h2 | ⟨h2, _⟩
      · exact Or.inr (Or.inl h2)
      · exact Or.inr (Or.inr h2)
  have hc_mem : (Key.modelMeta D M none, Doc.model meta) ∈ set_meta_data s D M meta := by
    unfold set_meta_data push_object
    exact List.mem_cons_of_mem _
      (mem_remove_key_of_mem (List.mem_cons_self _ _) (by intro hc; cases hc))
  refine ⟨hcan, hlat, ?_, ?_, ?_⟩
  · simp [get_meta_data, get_meta_data_run, hg, pull_object, hioc, hcan]
  · simp [get_domain, pull_object, hiod, hlat]
  · have hall : ∀ doc ∈ read_json_objects (set_meta_data s D M meta)
        (PathQuery.models D none), ∃ b, doc_model_id_e doc = .ok b := by
      intro doc hdoc
      rcases mem_read_json_objects.mp hdoc with ⟨q, hq, hu, hq2⟩
      rcases hmem2 q hq with h1 | h1 | h1
      · rw [h1] at hu
        simp [key_under] at hu
      · exact ⟨meta.model_id, by rw [← hq2, h1]; rfl⟩
      · rcases hwp q h1 hu with ⟨mm, hmm⟩
        exact ⟨mm.model_id, by rw [← hq2, hmm]; rfl⟩
    rcases mapE_ok_of_forall hall with ⟨ids, hids⟩
    refine ⟨ids, ?_, ?_⟩
    · simp only [list_models, state_name_truthy, Bool.false_and,
        Bool.false_eq_true, if_false]
      rw [show get_domain io (set_meta_data s D M meta) D = .ok (Doc.model meta)
        from by simp [get_domain, pull_object, hiod, hlat]]
      exact hids
    · have hdoc : Doc.model meta ∈ read_json_objects (set_meta_data s D M meta)
          (PathQuery.models D none) :=
        mem_read_json_objects.mpr ⟨_, hc_mem, by simp [key_under], rfl⟩
      rcases mapE_mem_fwd hids hdoc with ⟨b, hb, hbm⟩
      simp only [doc_model_id_e, Except.ok.injEq] at hb
      rw [← hb, hid] at hbm
      exact hbm

theorem spec_c5_witness :
    lookup (set_meta_data [] "sales" "m1" demo_meta)
        (Key.modelMeta "sales" "m1" none) = some (Doc.model demo_meta)
    ∧ lookup (set_meta_data [] "sales" "m1" demo_meta)
        (Key.domainLatest "sales") = some (Doc.model demo_meta)
    ∧ get_meta_data [] (set_meta_data [] "sales" "m1" demo_meta) "sales" "m1"
        = .ok (Doc.model demo_meta)
    ∧ get_domain [] (set_meta_data [] "sales" "m1" demo_meta) "sales"
        = .ok (Doc.model demo_meta)
    ∧ (∃ ids, list_models [] (set_meta_data [] "sales" "m1" demo_meta) "sales" none
        = .ok ids ∧ "m1" ∈ ids) :=
  spec_c5_upload_metadata_visible [] [] "sales" "m1" demo_meta
    (by decide) (by decide) (by decide) (by simp) (by simp) (by simp)

/-- C6: a successful `list_models(D, state)` returns the embedded model ids
of a creation-timestamp-sorted permutation of the metadata objects under
the (state-scoped) model prefix — the order is the embedded creation
order, not the backend listing order. -/
theorem spec_c6_list_models_sorted (io : List Key) (s : Objects) (D : String)
    (stOpt : Option String) (ids : List String)
    (h : list_models io s D stOpt = .ok ids) :
    ∃ ds : List Doc,
      ds.Perm (objects_under s (PathQuery.models D stOpt))
      ∧ List.Sorted created_rel ds
      ∧ mapE doc_model_id_e ds = .ok ids := by
  refine ⟨sorted_by_created (objects_under s (PathQuery.models D stOpt)),
    List.perm_insertionSort created_rel _,
    List.sorted_insertionSort created_rel _, ?_⟩
  unfold list_models at h
  cases hgb : (state_name_truthy stOpt && !(state_exists io s (stOpt.getD ""))) with
  | true => simp [hgb] at h
  | false =>
    simp only [hgb, Bool.false_eq_true, if_false] at h
    cases hd : get_domain io s D with
    | error e => simp [hd] at h
    | ok d =>
      simp only [hd] at h
      exact h

theorem spec_c6_witness :
    ∃ ds : List Doc,
      ds.Perm (objects_under two_models_store (PathQuery.models "sales" none))
      ∧ List.Sorted created_rel ds
      ∧ mapE doc_model_id_e ds = .ok ["m1", "m2"] :=
  spec_c6_list_models_sorted [] two_models_store "sales" none ["m1", "m2"]
    (by rfl)

/-- C7: `set_model_state(D, M, S)` on a valid non-reserved state S that was
never created fails with the StateNotFound condition (the `ValueError` the
source raises) and performs no backend write (empty write trace); after
`create_model_state(S)`, the same call succeeds — copying M's canonical
metadata to the state-scoped path — and `list_models(D, S)` then
contains M. -/
theorem spec_c7_set_model_state_requires_state (io : List Key) (s : Objects)
    (now now2 : Nat) (D M S : String) (cmm : ModelMeta)
    (hS : is_valid_state_name S = true)
    (hnc : lookup s (Key.stateRegistry S) = none)
    (hioS : Key.stateRegistry S ∉ io)
    (hcanon : lookup s (Key.modelMeta D M none) = some (Doc.model cmm))
    (hid : cmm.model_id = M)
    (hioc : Key.modelMeta D M none ∉ io)
    (hiod : Key.domainLatest D ∉ io)
    (hdl : (lookup s (Key.domainLatest D)).isSome)
    (hwp : ∀ p ∈ s, key_under p.1 (PathQuery.models D (some S)) = true →
      ∃ mm : ModelMeta, p.2 = Doc.model mm) :
    set_model_state_run io s now2 D M S
      = (.error (.valueError ("State '" ++ S ++ "' does not exist")), [])
    ∧ ∃ s1, create_model_state io s now S = .ok s1
        ∧ ∃ s2, set_model_state io s1 now2 D M S = .ok s2
          ∧ ∃ ids, list_models io s2 D (some S) = .ok ids ∧ M ∈ ids := by
  have hres : is_reserved_state S = false := by
    unfold is_valid_state_name at hS
    rcases Bool.and_eq_true _ _ |>.mp hS with ⟨_, h2⟩
    simp only [Bool.not_eq_true'] at h2
    exact h2
  have hse0 : state_exists io s S = false := by
    unfold state_exists pull_object
    rw [if_neg hioS, hnc]
  refine ⟨?_, ?_⟩
  · simp [set_model_state_run, hres, hse0]
  · refine ⟨push_object s (Key.stateRegistry S) (Doc.state S now), ?_, ?_⟩
    · simp [create_model_state, create_model_state_run, hres, hS, hse0]
    · set s1 := push_object s (Key.stateRegistry S) (Doc.state S now) with hs1
      have hse1 : state_exists io s1 S = true := by
        refine state_exists_true_iff.mpr ⟨hioS, ?_⟩
        rw [hs1, lookup_push_object, if_pos rfl]
        rfl
      have hcanon1 : lookup s1 (Key.modelMeta D M none) = some (Doc.model cmm) := by
        rw [hs1, lookup_push_object, if_neg (by intro hc; cases hc)]
        exact hcanon
      refine ⟨push_object s1 (Key.modelMeta D M (some S)) (Doc.model cmm), ?_, ?_⟩
      · simp [set_model_state, set_model_state_run, hres, hse1, pull_object,
          hioc, hcanon1]
      · set s2 := push_object s1 (Key.modelMeta D M (some S)) (Doc.model cmm)
          with hs2
        have hse2 : state_exists io s2 S = true := by
          refine state_exists_true_iff.mpr ⟨hioS, ?_⟩
          rw [hs2, lookup_push_object, if_neg (by intro hc; cases hc), hs1,
            lookup_push_object, if_pos rfl]
          rfl
        have hmem2 : ∀ p ∈ s2,
            p = (Key.modelMeta D M (some S), Doc.model cmm)
            ∨ p = (Key.stateRegistry S, Doc.state S now)
            ∨ p ∈ s := by
          intro p hp
          rcases mem_push_object hp with h1 | ⟨h1, _⟩
          · exact Or.inl h1
          · rcases mem_push_object h1 with h2 | ⟨h2, _⟩
            · exact Or.inr (Or.inl h2)
            · exact Or.inr (Or.inr h2)
        have hdl2 : lookup s2 (Key.domainLatest D) = lookup s (Key.domainLatest D) := by
          rw [hs2, lookup_push_object, if_neg (by intro hc; cases hc), hs1,
            lookup_push_object, if_neg (by intro hc; cases hc)]
        have hall : ∀ doc ∈ read_json_objects s2 (PathQuery.models D (some S)),
            ∃ b, doc_model_id_e doc = .ok b := by
          intro doc hdoc
          rcases mem_read_json_objects.mp hdoc with ⟨q, hq, hu, hq2⟩
          rcases hmem2 q hq with h1 | h1 | h1
          · exact ⟨cmm.model_id, by rw [← hq2, h1]; rfl⟩
          · rw [h1] at hu
            simp [key_under] at hu
          · rcases hwp q h1 hu with ⟨mm, hmm⟩
            exact ⟨mm.model_id, by rw [← hq2, hmm]; rfl⟩
        rcases mapE_ok_of_forall hall with ⟨ids, hids⟩
        refine ⟨ids, ?_, ?_⟩
        · have hgd : get_domain io s2 D = .ok (match lookup s (Key.domainLatest D) with
            | some d => d
            | none => Doc.model cmm) := by
            rcases Option.isSome_iff_exists.mp hdl with ⟨d, hd⟩
            simp [get_domain, pull_object, hiod, hdl2, hd]
          simp only [list_models, state_name_truthy, Option.getD_some, hse2,
            Bool.not_true, Bool.and_false, Bool.false_eq_true, if_false, hgd]
          exact hids
        · have hsc_mem : (Key.modelMeta D M (some S), Doc.model cmm) ∈ s2 := by
            rw [hs2]
            exact List.mem_cons_self _ _
          have hdoc : Doc.model cmm ∈ read_json_objects s2
              (PathQuery.models D (some S)) :=
            mem_read_json_objects.mpr ⟨_, hsc_mem, by simp [key_under], rfl⟩
          rcases mapE_mem_fwd hids hdoc with ⟨b, hb, hbm⟩
          simp only [doc_model_id_e, Except.ok.injEq] at hb
          rw [← hb, hid] at hbm
          exact hbm

theorem spec_c7_witness :
    set_model_state_run [] demo_store 4 "sales" "m1" "shadow"
      = (.error (.valueError ("State '" ++ "shadow" ++ "' does not exist")), [])
    ∧ ∃ s1, create_model_state [] demo_store 3 "shadow" = .ok s1
        ∧ ∃ s2, set_model_state [] s1 4 "sales" "m1" "shadow" = .ok s2
          ∧ ∃ ids, list_models [] s2 "sales" (some "shadow") = .ok ids
              ∧ "m1" ∈ ids :=
  spec_c7_set_model_state_requires_state [] demo_store 3 4 "sales" "m1" "shadow"
    demo_meta (by decide) (by decide) (by simp) (by decide) (by decide)
    (by simp) (by simp) (by decide)
    (by intro p hp hu
        simp only [demo_store, List.mem_cons, List.not_mem_nil, or_false] at hp
        rcases hp with rfl | rfl | rfl | rfl <;> exact absurd hu (by decide))

/-- C4 counterexample: on a store where the canonical record is absent and
the tombstone is present (a deleted model), `check_model_exists` does not
return `false` as the claim states — the `ModelDeletedException` raised by
`get_meta_data` is not among the exceptions the source catches
(`ModelNotFoundException`, `FilePullFailedException`), so it escapes to
the caller. -/
theorem spec_c4_counterexample :
    check_model_exists [] tomb_store "sales" "m1"
      = .error (.modelDeleted "sales" "m1")
    ∧ check_model_exists [] tomb_store "sales" "m1" ≠ .ok false := by
  constructor
  · rfl
  · intro hc
    rw [show check_model_exists [] tomb_store "sales" "m1"
      = .error (.modelDeleted "sales" "m1") from rfl] at hc
    exact Except.noConfusion hc

/-- C4 amended: `check_model_exists` returns true when the canonical record
is present and reachable, returns false when `get_meta_data` fails with the
not-found outcome, but a deleted-tombstone outcome propagates the
`ModelDeletedException` to the caller (it is not converted to false), and
a transport error on the canonical pull also propagates. -/
theorem spec_c4_check_model_exists_amended (io : List Key) (s : Objects)
    (D M : String) (hD : D ≠ "") (hM : M ≠ "")
    (h1 : Key.modelMeta D M none ∉ io)
    (h2 : Key.modelMeta D M (some RESERVED_DELETED) ∉ io) :
    (∀ d, lookup s (Key.modelMeta D M none) = some d →
      check_model_exists io s D M = .ok true)
    ∧ (lookup s (Key.modelMeta D M none) = none →
       lookup s (Key.modelMeta D M (some RESERVED_DELETED)) = none →
       check_model_exists io s D M = .ok false)
    ∧ (lookup s (Key.modelMeta D M none) = none →
       lookup s (Key.modelMeta D M (some RESERVED_DELETED)) ≠ none →
       check_model_exists io s D M = .error (.modelDeleted D M))
    ∧ (∀ io2 : List Key, Key.modelMeta D M none ∈ io2 →
       check_model_exists io2 s D M = .error .ioError) := by
  rcases get_meta_data_outcome io s D M hD hM h1 h2 with ⟨o1, o2, o3⟩
  refine ⟨?_, ?_, ?_, ?_⟩
  · intro d hd
    simp [check_model_exists, o1 d hd]
  · intro hc ht
    simp [check_model_exists, o3 hc ht]
  · intro hc ht
    simp [check_model_exists, o2 hc ht]
  · intro io2 hio2
    have hg : ¬(D = "" ∨ M = "") := by simp [hD, hM]
    simp [check_model_exists, get_meta_data, get_meta_data_run, hg,
      pull_object, hio2]

theorem spec_c4_witness :
    check_model_exists [] present_store "sales" "m1" = .ok true
    ∧ check_model_exists [] [] "sales" "m1" = .ok false
    ∧ check_model_exists [Key.modelMeta "sales" "m1" none] present_store
        "sales" "m1" = .error .ioError :=
  ⟨(spec_c4_check_model_exists_amended [] present_store "sales" "m1"
      (by decide) (by decide) (by simp) (by simp)).1 (Doc.model demo_meta)
      (by decide),
   (spec_c4_check_model_exists_amended [] [] "sales" "m1"
      (by decide) (by decide) (by simp) (by simp)).2.1 rfl rfl,
   (spec_c4_check_model_exists_amended [] present_store "sales" "m1"
      (by decide) (by decide) (by simp) (by simp)).2.2.2
      [Key.modelMeta "sales" "m1" none] (by simp)⟩

/-- C8 counterexample: the "prod" registry object is present in the
backend, yet the probe pull fails with a transport error and `state_exists`
returns false — the broad `except Exception` in the source converts every
backend error into false instead of propagating it, so "true iff the
backend has an object at the state's registry key" fails. -/
theorem spec_c8_counterexample :
    lookup reg_store (Key.stateRegistry "prod") = some (Doc.state "prod" 3)
    ∧ state_exists [Key.stateRegistry "prod"] reg_store "prod" = false := by
  exact ⟨rfl, rfl⟩

/-- C8 amended: `state_exists(name)` returns true iff the probe pull of
the state's registry key succeeds, i.e. iff the key is reachable and an
object is stored there; every failure of the probe, backend transport
errors included, yields false — no error propagates to the caller. -/
theorem spec_c8_state_exists_amended (io : List Key) (s : Objects)
    (n : String) :
    state_exists io s n = true ↔
      (Key.stateRegistry n ∉ io ∧ (lookup s (Key.stateRegistry n)).isSome) :=
  state_exists_true_iff
